import Mathlib

/-!
# Verification of the vgm-admin upload/list workflow

Shallow embedding of the two API routes (`POST /api/upload`,
`GET /api/images`) and of the client-side uploader/gallery logic of the
`vgm-admin` repository, together with proofs of the specification claims.

Conventions of the embedding:
* Multipart files are records of name, MIME type, declared size and byte
  content; byte contents are lists of naturals.
* The S3 client (`s3Client.send`) is passed in as an explicit function
  returning `Except String _`: `Except.error msg` models the SDK throwing
  an `Error` whose `.message` is `msg`.
* `Date` values are modelled by their epoch-millisecond value (an `Int`);
  the route's `Date → toISOString → new Date → getTime` round-trip is the
  identity on milliseconds, so the comparator acts directly on these.
* JavaScript string truthiness (`!bytes`, `obj.Key && ...`) is translated
  explicitly: `0`, `undefined` and `""` are falsy.
* `Array.prototype.sort` is modelled as a stable insertion sort
  (ECMAScript requires sort stability; for pairs on which the comparator
  returns 0 a stable sort keeps the earlier element first).
-/

namespace VgmAdmin

/-! ## Data model -/

/-- A multipart `File`: name, MIME type, size in bytes, and content bytes. -/
structure FileData where
  name : String
  type : String
  size : Nat
  content : List Nat
  deriving DecidableEq, Repr

/-- The argument of a `PutObjectCommand`: key, body and content type
(the bucket name is fixed configuration and plays no role in the claims). -/
structure PutObject where
  key : String
  body : List Nat
  contentType : String
  deriving DecidableEq, Repr

/-- The JSON response of `POST /api/upload`: HTTP status plus the fields
that can occur in the body (`error`, `details`, `fileUrl`, `key`). -/
structure UploadResp where
  status : Nat
  error : Option String
  details : Option String
  fileUrl : Option String
  key : Option String
  deriving DecidableEq, Repr

/-! ## Upload route (src/unnamed/part_000, `POST`) -/

/-- `const allowedTypes = ["image/jpeg", "image/png", "image/gif", "image/webp"]`. -/
def allowedTypes : List String :=
  ["image/jpeg", "image/png", "image/gif", "image/webp"]

/-- `const maxSize = 10 * 1024 * 1024`. -/
def maxSize : Nat := 10 * 1024 * 1024

/-- JavaScript `String.prototype.split` with a one-character separator,
on the character-list representation.  `splitPer c s` never returns `[]`
(splitting the empty string yields `[[]]`, as `"".split(".")` is `[""]`). -/
def splitPer (c : Char) : List Char → List (List Char)
  | [] => [[]]
  | x :: xs =>
    match splitPer c xs with
    | [] => [[]]
    | s :: ss => if x = c then [] :: s :: ss else (x :: s) :: ss

/-- `const fileExtension = file.name.split(".").pop()`: the last chunk of
the name split at every `'.'` (`pop` of the non-empty result array). -/
def fileExt (name : String) : String :=
  ⟨(splitPer '.' name.data).getLastD []⟩

/-- `` const key = `uploads/${uuidv4()}.${fileExtension}` ``.  The uuid is
a parameter of the embedding (the route draws a fresh uuidv4 per request). -/
def uploadKey (uuid name : String) : String :=
  "uploads/" ++ uuid ++ "." ++ fileExt name

/-- The `POST` handler of `/api/upload`.  Inputs: the public base URL, the
uuid drawn by `uuidv4()`, the (possibly absent) multipart field `file`,
and the storage client `send`.  Output: the JSON response together with
the list of `PutObjectCommand`s issued to the store (empty or a
singleton).  All response bodies mirror the source literally. -/
def uploadPOST (pub uuid : String) (file : Option FileData)
    (send : PutObject → Except String Unit) : UploadResp × List PutObject :=
  match file with
  | none => (⟨400, some "File is required", none, none, none⟩, [])
  | some f =>
    if !(allowedTypes.contains f.type) then
      (⟨400, some "Invalid file type. Allowed: JPEG, PNG, GIF, WebP",
        none, none, none⟩, [])
    else if f.size > maxSize then
      (⟨400, some "File size exceeds 10MB limit", none, none, none⟩, [])
    else
      let key := uploadKey uuid f.name
      let obj : PutObject := ⟨key, f.content, f.type⟩
      match send obj with
      | Except.error msg =>
        (⟨500, some "Failed to upload file", some msg, none, none⟩, [obj])
      | Except.ok _ =>
        (⟨200, none, none, some (pub ++ "/" ++ key), some key⟩, [obj])

/-! ## List route (src/src/app/api/images/route.ts, `GET`) -/

/-- One entry of `response.Contents`: optional `Key`, `Size`,
`LastModified` (epoch milliseconds). -/
structure S3Obj where
  key : Option String
  size : Option Nat
  lastModified : Option Int
  deriving DecidableEq, Repr

/-- An entry of the `images` array returned by the route. -/
structure ImageItem where
  key : String
  url : String
  size : Option Nat
  lastModified : Option Int
  deriving DecidableEq, Repr

/-- The JSON response of `GET /api/images`. -/
structure ImagesResp where
  status : Nat
  error : Option String
  details : Option String
  images : Option (List ImageItem)
  deriving DecidableEq, Repr

/-- `(obj) => obj.Key && obj.Key !== "uploads/"`: truthiness of `obj.Key`
requires it to be present and non-empty. -/
def keepObj (o : S3Obj) : Bool :=
  match o.key with
  | none => false
  | some k => k != "" && k != "uploads/"

/-- The `.map` step: `{ key, url, size, lastModified }` with
`` url = `${publicUrl}/${obj.Key}` ``. -/
def toItem (pub : String) (o : S3Obj) : ImageItem :=
  ⟨o.key.getD "", pub ++ "/" ++ o.key.getD "", o.size, o.lastModified⟩

/-- Descending order of `lastModified` values (read through `getD`, which
is the actual timestamp whenever the field is present). -/
def descBy (a b : ImageItem) : Prop :=
  b.lastModified.getD 0 ≤ a.lastModified.getD 0

/-- The sort comparator:
`(a, b) => new Date(b.lastModified) - new Date(a.lastModified)` applied to
entries whose `lastModified` may be `undefined`; the route short-circuits
to `0` when either side is missing. -/
def imgCmp (a b : ImageItem) : Int :=
  match a.lastModified, b.lastModified with
  | some ta, some tb => tb - ta
  | _, _ => 0

/-- Stable insertion of `x` into `l`: `x` is placed before the first `y`
with `cmp x y ≤ 0` (elements that compare `0` with `x` stay behind it,
as a stable sort keeps the earlier element first). -/
def insertCmp {α : Type} (cmp : α → α → Int) (x : α) : List α → List α
  | [] => [x]
  | y :: ys => if cmp x y ≤ 0 then x :: y :: ys else y :: insertCmp cmp x ys

/-- Stable sort with a JavaScript-style comparator, modelling
`Array.prototype.sort(cmp)`. -/
def sortCmp {α : Type} (cmp : α → α → Int) : List α → List α
  | [] => []
  | x :: xs => insertCmp cmp x (sortCmp cmp xs)

/-- The filter/map/sort pipeline of the route applied to
`response.Contents` (which is `undefined` or an array: `Contents || []`). -/
def listImages (pub : String) (contents : Option (List S3Obj)) : List ImageItem :=
  sortCmp imgCmp (((contents.getD []).filter keepObj).map (toItem pub))

/-- The `GET` handler of `/api/images`: `send` is the outcome of
`s3Client.send(new ListObjectsV2Command ...)`. -/
def imagesGET (pub : String) (send : Except String (Option (List S3Obj))) :
    ImagesResp :=
  match send with
  | Except.error msg => ⟨500, some "Failed to list images", some msg, none⟩
  | Except.ok contents => ⟨200, none, none, some (listImages pub contents)⟩

/-! ## Client-side uploader (src/src/components/ImageGallery.tsx) -/

/-- `const ALLOWED_TYPES = [...]` of the uploader component. -/
def ALLOWED_TYPES : List String :=
  ["image/jpeg", "image/png", "image/gif", "image/webp"]

/-- `const MAX_FILE_SIZE = 10 * 1024 * 1024`. -/
def MAX_FILE_SIZE : Nat := 10 * 1024 * 1024

/-- The client-side `validateFile`: returns the error message, or `null`. -/
def validateFile (f : FileData) : Option String :=
  if !(ALLOWED_TYPES.contains f.type) then
    some "Invalid file type. Allowed: JPEG, PNG, GIF, WebP"
  else if f.size > MAX_FILE_SIZE then
    some "File size exceeds 10MB limit"
  else none

/-- The `status` field of an `UploadedFile`. -/
inductive UStatus where
  | pending
  | uploading
  | completed
  | error
  deriving DecidableEq, Repr

/-- An `UploadedFile` task of the uploader:
`{ file, preview, progress, status, url?, error? }`. -/
structure UTask where
  file : FileData
  preview : String
  progress : Nat
  status : UStatus
  url : Option String
  error : Option String
  deriving DecidableEq, Repr

/-- Task creation inside `addFiles`: `status: error ? "error" : "pending"`,
`error: error || undefined`; `preview` is the `URL.createObjectURL` handle. -/
def mkTask (f : FileData) (preview : String) : UTask :=
  let e := validateFile f
  ⟨f, preview, 0, if e.isSome then UStatus.error else UStatus.pending, none, e⟩

/-- `addFiles`: appends one freshly created task per dropped/selected file. -/
def addFiles (tasks : List UTask) (newFiles : List (FileData × String)) :
    List UTask :=
  tasks ++ newFiles.map (fun p => mkTask p.1 p.2)

/-- `list.map((t, j) => ...)` with the index threaded from `n`. -/
def mapFromIdx (g : Nat → UTask → UTask) : Nat → List UTask → List UTask
  | _, [] => []
  | n, t :: ts => g n t :: mapFromIdx g (n + 1) ts

/-- The update pattern of every `setFiles` call:
`prev.map((f, j) => (j === i ? g f : f))`. -/
def setTaskAt (tasks : List UTask) (i : Nat) (g : UTask → UTask) : List UTask :=
  mapFromIdx (fun j t => if j = i then g t else t) 0 tasks

/-- The synchronous head of `uploadFile(uploadedFile, index)`: the caller
passes the task `snap` it read at index `i`; a task already in `error`
is skipped (`if (uploadedFile.status === "error") return`), otherwise
slot `i` is set to `uploading` with progress `0`. -/
def uploadFileSyncPart (snap : UTask) (tasks : List UTask) (i : Nat) :
    List UTask :=
  if snap.status = UStatus.error then tasks
  else setTaskAt tasks i
    (fun u => { u with status := UStatus.uploading, progress := 0 })

/-- The `xhr.upload.onprogress` update: progress only. -/
def setTaskProgress (tasks : List UTask) (i p : Nat) : List UTask :=
  setTaskAt tasks i (fun t => { t with progress := p })

/-- The `xhr.onload` success update: `completed`, progress 100, result URL. -/
def finishTask (tasks : List UTask) (i : Nat) (u : String) : List UTask :=
  setTaskAt tasks i
    (fun t => { t with status := UStatus.completed, progress := 100,
                       url := some u })

/-- The `xhr.onload` failure / `xhr.onerror` / catch update: `error`
with a message. -/
def failTask (tasks : List UTask) (i : Nat) (msg : String) : List UTask :=
  setTaskAt tasks i (fun t => { t with status := UStatus.error,
                                       error := some msg })

/-- One iteration of the `forEach` in `uploadAllFiles`: the snapshot
element `snapshot[i]` is checked for `pending`, and if so the synchronous
part of `uploadFile(file, index)` runs against the current list `acc`. -/
def uploadAllStep (snapshot acc : List UTask) (i : Nat) : List UTask :=
  match snapshot[i]? with
  | some t =>
    if t.status = UStatus.pending then uploadFileSyncPart t acc i else acc
  | none => acc

/-- `uploadAllFiles`: `files.forEach((file, index) => { if (file.status ===
"pending") uploadFile(file, index) })` — the `forEach` iterates over the
snapshot `tasks`, and each call runs the synchronous part of `uploadFile`
on the current list. -/
def uploadAllFiles (tasks : List UTask) : List UTask :=
  (List.range tasks.length).foldl (uploadAllStep tasks) tasks

/-- The transitions the specification's task state machine allows:
stay put, `pending → uploading`, or `uploading → completed/error`. -/
def allowedTransition (a b : UStatus) : Prop :=
  b = a ∨ (a = UStatus.pending ∧ b = UStatus.uploading) ∨
    (a = UStatus.uploading ∧ (b = UStatus.completed ∨ b = UStatus.error))

/-- The effect of one `uploadFile` start on a single task, as `uploadAllFiles`
produces it: a `pending` task becomes `uploading` with progress `0`, any
other task is untouched. -/
def startUploadUpd (t : UTask) : UTask :=
  if t.status = UStatus.pending then
    { t with status := UStatus.uploading, progress := 0 }
  else t

/-- JavaScript `arr.filter((_, j) => p j)` with the index threaded from `n`. -/
def filterIdx (p : Nat → Bool) : Nat → List UTask → List UTask
  | _, [] => []
  | n, t :: ts =>
    if p n then t :: filterIdx p (n + 1) ts else filterIdx p (n + 1) ts

/-- `removeFile(index)`: the updater reads `prev[index]`, synchronously
revokes its object URL, and returns `prev.filter((_, i) => i !== index)`.
The first component is the preview URL passed to `URL.revokeObjectURL`. -/
def removeFile (tasks : List UTask) (i : Nat) : Option String × List UTask :=
  ((tasks[i]?).map UTask.preview, filterIdx (fun j => j != i) 0 tasks)

/-- The events that mutate the task list.  Every `setFiles` updater in the
source is one of: task addition (`addFiles`), "Upload All", task removal,
or an XMLHttpRequest callback (`onprogress`, `onload` with status 200,
`onload` with another status / `onerror` / the catch) of an `uploadFile`
call started earlier.  The callbacks close over the numeric `index`
captured when that upload started and never re-validate it against the
current list, so after a removal the captured index may denote a
different task than the one whose request completed. -/
inductive UStep : List UTask → List UTask → Prop where
  | addTasks (tasks : List UTask) (newFiles : List (FileData × String)) :
      UStep tasks (addFiles tasks newFiles)
  | uploadAll (tasks : List UTask) : UStep tasks (uploadAllFiles tasks)
  | remove (tasks : List UTask) (i : Nat) :
      UStep tasks (removeFile tasks i).2
  | progressEvt (tasks : List UTask) (i p : Nat) :
      UStep tasks (setTaskProgress tasks i p)
  | finish (tasks : List UTask) (i : Nat) (u : String) :
      UStep tasks (finishTask tasks i u)
  | fail (tasks : List UTask) (i : Nat) (msg : String) :
      UStep tasks (failTask tasks i msg)

/-! ## Gallery helpers (src/src/components/ImageGallery.tsx) -/

/-- Round `a / b` to the nearest integer, halves away from zero — the
rounding `Number.prototype.toFixed` applies to the exact non-negative
value `a / b` (for the sizes at hand `n / 1024` and `n / 1048576` are
exact in binary floating point, so `toFixed` rounds the true rational). -/
def roundHalfUp (a b : Nat) : Nat := (2 * a + b) / (2 * b)

/-- Two-digit rendering of the fractional part produced by `toFixed(2)`. -/
def padTwo (k : Nat) : String :=
  if k < 10 then "0" ++ toString k else toString k

/-- The gallery's `formatFileSize`.  `if (!bytes) return "Unknown"` is
JavaScript truthiness: both `undefined` and `0` take this branch.  The KB
branch is `(bytes / 1024).toFixed(1)`, the MB branch
`(bytes / 1024 / 1024).toFixed(2)`. -/
def formatFileSize (bytes : Option Nat) : String :=
  match bytes with
  | none => "Unknown"
  | some n =>
    if n = 0 then "Unknown"
    else if n < 1024 then toString n ++ " B"
    else if n < 1024 * 1024 then
      let d := roundHalfUp (10 * n) 1024
      toString (d / 10) ++ "." ++ toString (d % 10) ++ " KB"
    else
      let d := roundHalfUp (100 * n) (1024 * 1024)
      toString (d / 100) ++ "." ++ padTwo (d % 100) ++ " MB"

/-! ## Helper lemmas: `splitPer` -/

theorem splitPer_ne_nil (c : Char) (l : List Char) : splitPer c l ≠ [] := by
  induction l with
  | nil => simp [splitPer]
  | cons x xs ih =>
    simp only [splitPer]
    cases h : splitPer c xs with
    | nil => exact absurd h ih
    | cons s ss => by_cases hx : x = c <;> simp [hx]

theorem splitPer_cons (c x : Char) (xs : List Char) (s : List Char)
    (ss : List (List Char)) (h : splitPer c xs = s :: ss) :
    splitPer c (x :: xs) =
      if x = c then [] :: s :: ss else (x :: s) :: ss := by
  simp only [splitPer, h]

theorem not_mem_of_mem_splitPer (c : Char) (l : List Char) :
    ∀ s ∈ splitPer c l, c ∉ s := by
  induction l with
  | nil =>
    intro s hs
    simp only [splitPer, List.mem_singleton] at hs
    simp [hs]
  | cons x xs ih =>
    intro s hs
    cases h : splitPer c xs with
    | nil => exact absurd h (splitPer_ne_nil c xs)
    | cons t ts =>
      rw [splitPer_cons c x xs t ts h] at hs
      by_cases hx : x = c
      · rw [if_pos hx] at hs
        rcases List.mem_cons.mp hs with rfl | hs'
        · simp
        · exact ih s (h ▸ hs')
      · rw [if_neg hx] at hs
        rcases List.mem_cons.mp hs with rfl | hs'
        · intro hc
          rcases List.mem_cons.mp hc with rfl | hc'
          · exact hx rfl
          · exact ih t (h ▸ List.mem_cons_self t ts) hc'
        · exact ih s (h ▸ List.mem_cons_of_mem t hs')

theorem mem_of_mem_splitPer (c : Char) (l : List Char) :
    ∀ s ∈ splitPer c l, ∀ a ∈ s, a ∈ l := by
  induction l with
  | nil =>
    intro s hs
    simp only [splitPer, List.mem_singleton] at hs
    simp [hs]
  | cons x xs ih =>
    intro s hs a ha
    cases h : splitPer c xs with
    | nil => exact absurd h (splitPer_ne_nil c xs)
    | cons t ts =>
      rw [splitPer_cons c x xs t ts h] at hs
      by_cases hx : x = c
      · rw [if_pos hx] at hs
        rcases List.mem_cons.mp hs with rfl | hs'
        · simp at ha
        · exact List.mem_cons_of_mem x (ih s (h ▸ hs') a ha)
      · rw [if_neg hx] at hs
        rcases List.mem_cons.mp hs with rfl | hs'
        · rcases List.mem_cons.mp ha with rfl | ha'
          · exact List.mem_cons_self a xs
          · exact List.mem_cons_of_mem x
              (ih t (h ▸ List.mem_cons_self t ts) a ha')
        · exact List.mem_cons_of_mem x
            (ih s (h ▸ List.mem_cons_of_mem t hs') a ha)

theorem splitPer_append (c : Char) (xs ys : List Char) (hx : c ∉ xs)
    (s : List Char) (ss : List (List Char)) (h : splitPer c ys = s :: ss) :
    splitPer c (xs ++ ys) = (xs ++ s) :: ss := by
  induction xs with
  | nil => simpa using h
  | cons a as ih =>
    have ha : ¬(a = c) := fun e => hx (e ▸ List.mem_cons_self a as)
    have hx' : c ∉ as := fun hc => hx (List.mem_cons_of_mem a hc)
    rw [List.cons_append, splitPer_cons c a (as ++ ys) (as ++ s) ss (ih hx'),
      if_neg ha, List.cons_append]

theorem splitPer_cons_self (c : Char) (ys : List Char) :
    splitPer c (c :: ys) = [] :: splitPer c ys := by
  cases h : splitPer c ys with
  | nil => exact absurd h (splitPer_ne_nil c ys)
  | cons s ss =>
    rw [splitPer_cons c c ys s ss h, if_pos rfl]

theorem splitPer_append_cons (c : Char) (xs ys : List Char) (hx : c ∉ xs) :
    splitPer c (xs ++ c :: ys) = xs :: splitPer c ys := by
  have := splitPer_append c xs (c :: ys) hx [] (splitPer c ys)
    (splitPer_cons_self c ys)
  simpa using this

theorem fileExt_mem (name : String) :
    (fileExt name).data ∈ splitPer '.' name.data := by
  show (splitPer '.' name.data).getLastD [] ∈ splitPer '.' name.data
  cases h : splitPer '.' name.data with
  | nil => exact absurd h (splitPer_ne_nil '.' name.data)
  | cons s ss =>
    rw [List.getLastD_cons]
    exact List.getLastD_mem_cons ss s

theorem dot_not_mem_fileExt (name : String) : '.' ∉ (fileExt name).data :=
  not_mem_of_mem_splitPer '.' name.data _ (fileExt_mem name)

/-! ## Helper lemmas: stable comparator sort -/

theorem mem_insertCmp {α : Type} (cmp : α → α → Int) (x a : α) (l : List α) :
    a ∈ insertCmp cmp x l ↔ a = x ∨ a ∈ l := by
  induction l with
  | nil => simp [insertCmp]
  | cons y ys ih =>
    simp only [insertCmp]
    by_cases h : cmp x y ≤ 0
    · rw [if_pos h]
      simp [List.mem_cons]
    · rw [if_neg h]
      simp only [List.mem_cons, ih]
      tauto

theorem mem_sortCmp {α : Type} (cmp : α → α → Int) (a : α) (l : List α) :
    a ∈ sortCmp cmp l ↔ a ∈ l := by
  induction l with
  | nil => simp [sortCmp]
  | cons x xs ih => simp [sortCmp, mem_insertCmp, ih]

theorem imgCmp_none_left (n x : ImageItem) (hn : n.lastModified = none) :
    imgCmp n x = 0 := by
  cases hx : x.lastModified <;> simp [imgCmp, hn, hx]

theorem imgCmp_none_right (x n : ImageItem) (hn : n.lastModified = none) :
    imgCmp x n = 0 := by
  cases hx : x.lastModified <;> simp [imgCmp, hn, hx]

theorem imgCmp_some_some (a b : ImageItem) (ta tb : Int)
    (ha : a.lastModified = some ta) (hb : b.lastModified = some tb) :
    imgCmp a b = tb - ta := by
  simp [imgCmp, ha, hb]

theorem pairwise_insertCmp (x : ImageItem) (l : List ImageItem)
    (hx : x.lastModified.isSome) (hl : ∀ y ∈ l, y.lastModified.isSome)
    (h : l.Pairwise descBy) : (insertCmp imgCmp x l).Pairwise descBy := by
  induction l with
  | nil => simp [insertCmp]
  | cons y ys ih =>
    obtain ⟨tx, hxv⟩ := Option.isSome_iff_exists.mp hx
    obtain ⟨ty, hyv⟩ :=
      Option.isSome_iff_exists.mp (hl y (List.mem_cons_self y ys))
    rw [List.pairwise_cons] at h
    simp only [insertCmp]
    by_cases hc : imgCmp x y ≤ 0
    · rw [if_pos hc]
      have hxy : descBy x y := by
        rw [imgCmp_some_some x y tx ty hxv hyv] at hc
        simp [descBy, hxv, hyv]
        omega
      refine List.pairwise_cons.mpr ⟨?_, List.pairwise_cons.mpr ⟨h.1, h.2⟩⟩
      intro z hz
      rcases List.mem_cons.mp hz with rfl | hz'
      · exact hxy
      · have hyz := h.1 z hz'
        simp only [descBy] at hxy hyz ⊢
        omega
    · rw [if_neg hc]
      refine List.pairwise_cons.mpr
        ⟨?_, ih (fun z hz => hl z (List.mem_cons_of_mem y hz)) h.2⟩
      intro z hz
      rcases (mem_insertCmp imgCmp x z ys).mp hz with rfl | hz'
      · rw [imgCmp_some_some z y tx ty hxv hyv] at hc
        simp [descBy, hxv, hyv]
        omega
      · exact h.1 z hz'

theorem pairwise_sortCmp (l : List ImageItem)
    (hl : ∀ y ∈ l, y.lastModified.isSome) :
    (sortCmp imgCmp l).Pairwise descBy := by
  induction l with
  | nil => simp [sortCmp]
  | cons x xs ih =>
    simp only [sortCmp]
    refine pairwise_insertCmp x _ (hl x (List.mem_cons_self x xs)) ?_ ?_
    · intro y hy
      exact hl y (List.mem_cons_of_mem x ((mem_sortCmp imgCmp y xs).mp hy))
    · exact ih (fun y hy => hl y (List.mem_cons_of_mem x hy))

theorem insertCmp_append_of_le {α : Type} (cmp : α → α → Int) (x n : α)
    (s t : List α) (hn : cmp x n ≤ 0) :
    insertCmp cmp x (s ++ n :: t) = insertCmp cmp x s ++ n :: t := by
  induction s with
  | nil => simp [insertCmp, hn]
  | cons y ys ih =>
    simp only [List.cons_append, insertCmp]
    by_cases h : cmp x y ≤ 0 <;> simp [h, ih]

theorem sortCmp_split_at_none (pre suf : List ImageItem) (n : ImageItem)
    (hn : n.lastModified = none) :
    sortCmp imgCmp (pre ++ n :: suf) =
      sortCmp imgCmp pre ++ n :: sortCmp imgCmp suf := by
  induction pre with
  | nil =>
    simp only [List.nil_append, sortCmp]
    cases h : sortCmp imgCmp suf with
    | nil => simp [insertCmp]
    | cons y ys =>
      simp [insertCmp, imgCmp_none_left n y hn]
  | cons x xs ih =>
    rw [List.cons_append]
    simp only [sortCmp]
    rw [ih]
    exact insertCmp_append_of_le imgCmp x n _ _
      (imgCmp_none_right x n hn).le

/-! ## Helper lemmas: task-list updates -/

theorem mapFromIdx_getElem? (g : Nat → UTask → UTask) (n j : Nat)
    (l : List UTask) : (mapFromIdx g n l)[j]? = (l[j]?).map (g (n + j)) := by
  induction l generalizing n j with
  | nil => simp [mapFromIdx]
  | cons t ts ih =>
    cases j with
    | zero => simp [mapFromIdx]
    | succ k =>
      have h2 := ih (n + 1) k
      rw [show n + (k + 1) = (n + 1) + k by omega]
      simp only [mapFromIdx, List.getElem?_cons_succ]
      exact h2

theorem setTaskAt_getElem? (tasks : List UTask) (i : Nat) (g : UTask → UTask)
    (j : Nat) :
    (setTaskAt tasks i g)[j]? =
      (tasks[j]?).map (fun t => if j = i then g t else t) := by
  have := mapFromIdx_getElem? (fun j t => if j = i then g t else t) 0 j tasks
  simpa [setTaskAt] using this

theorem uploadAllStep_getElem? (s acc : List UTask) (i k : Nat)
    (hacci : acc[i]? = s[i]?) :
    (uploadAllStep s acc i)[k]? =
      if k = i then (s[i]?).map startUploadUpd else acc[k]? := by
  cases hsi : s[i]? with
  | none =>
    simp only [uploadAllStep, hsi]
    by_cases hk : k = i
    · subst hk
      rw [if_pos rfl, hacci, hsi]
      rfl
    · rw [if_neg hk]
  | some t =>
    by_cases hp : t.status = UStatus.pending
    · have hne : ¬(t.status = UStatus.error) := by
        rw [hp]
        intro hcon
        cases hcon
      simp only [uploadAllStep, hsi, if_pos hp]
      rw [show uploadFileSyncPart t acc i =
        setTaskAt acc i
          (fun u => { u with status := UStatus.uploading, progress := 0 })
        from if_neg hne]
      rw [setTaskAt_getElem?]
      by_cases hk : k = i
      · subst hk
        rw [if_pos rfl, hacci, hsi]
        simp only [Option.map_some', if_true]
        rw [startUploadUpd, if_pos hp]
      · rw [if_neg hk]
        cases acc[k]? with
        | none => rfl
        | some u =>
          simp only [Option.map_some']
          rw [if_neg hk]
    · simp only [uploadAllStep, hsi, if_neg hp]
      by_cases hk : k = i
      · subst hk
        rw [if_pos rfl, hacci, hsi]
        simp only [Option.map_some']
        rw [startUploadUpd, if_neg hp]
      · rw [if_neg hk]

theorem uploadAll_foldl (s : List UTask) (idxs : List Nat) (acc : List UTask)
    (hnd : idxs.Nodup) (hacc : ∀ k ∈ idxs, acc[k]? = s[k]?) (j : Nat) :
    (idxs.foldl (uploadAllStep s) acc)[j]? =
      if j ∈ idxs then (s[j]?).map startUploadUpd else acc[j]? := by
  induction idxs generalizing acc with
  | nil => simp
  | cons i rest ih =>
    have hi : i ∉ rest := (List.nodup_cons.mp hnd).1
    have hnd' : rest.Nodup := (List.nodup_cons.mp hnd).2
    have hacci : acc[i]? = s[i]? := hacc i (List.mem_cons_self i rest)
    rw [List.foldl_cons]
    rw [ih _ hnd' ?haccrest]
    case haccrest =>
      intro k hk
      have hki : ¬(k = i) := fun he => hi (he ▸ hk)
      rw [uploadAllStep_getElem? s acc i k hacci, if_neg hki]
      exact hacc k (List.mem_cons_of_mem i hk)
    by_cases hj : j ∈ rest
    · rw [if_pos hj, if_pos (List.mem_cons_of_mem i hj)]
    · rw [if_neg hj, uploadAllStep_getElem? s acc i j hacci]
      by_cases hji : j = i
      · subst hji
        rw [if_pos rfl, if_pos (List.mem_cons_self j rest)]
      · rw [if_neg hji,
          if_neg (fun hm => (List.mem_cons.mp hm).elim hji hj)]

theorem uploadAllFiles_getElem? (s : List UTask) (j : Nat) :
    (uploadAllFiles s)[j]? = (s[j]?).map startUploadUpd := by
  have h := uploadAll_foldl s (List.range s.length) s (List.nodup_range _)
    (fun k _ => rfl) j
  rw [uploadAllFiles, h]
  by_cases hj : j < s.length
  · rw [if_pos (List.mem_range.mpr hj)]
  · rw [if_neg (fun hm => hj (List.mem_range.mp hm))]
    rw [List.getElem?_eq_none (Nat.le_of_not_lt hj)]
    rfl

theorem filterIdx_keep_of_lt (i0 : Nat) (l : List UTask) (n : Nat)
    (h : i0 < n) : filterIdx (fun j => j != i0) n l = l := by
  induction l generalizing n with
  | nil => simp [filterIdx]
  | cons t ts ih =>
    have hb : (n != i0) = true := by
      simp only [bne_iff_ne]
      omega
    simp [filterIdx, hb, ih (n + 1) (Nat.lt_succ_of_lt h)]

theorem filterIdx_erase (l : List UTask) (n i : Nat) :
    filterIdx (fun j => j != (n + i)) n l = l.take i ++ l.drop (i + 1) := by
  induction l generalizing n i with
  | nil => simp [filterIdx]
  | cons t ts ih =>
    cases i with
    | zero =>
      simp only [Nat.add_zero, filterIdx, bne_self_eq_false,
        Bool.false_eq_true, if_false]
      rw [filterIdx_keep_of_lt n ts (n + 1) (Nat.lt_succ_self n)]
      simp
    | succ k =>
      have h1 : (n != (n + (k + 1))) = true := by
        simp only [bne_iff_ne]
        omega
      simp only [filterIdx, h1, if_true]
      rw [show n + (k + 1) = (n + 1) + k by omega, ih (n + 1) k]
      simp

/-! ## Helper lemmas: storage keys -/

theorem uploadKey_data (uuid name : String) :
    (uploadKey uuid name).data =
      "uploads/".data ++ (uuid.data ++ '.' :: (fileExt name).data) := by
  show ("uploads/" ++ uuid ++ "." ++ fileExt name).data = _
  rw [String.data_append, String.data_append, String.data_append]
  rw [show (".").data = ['.'] from rfl]
  simp [List.append_assoc]

theorem uploadKey_inj_uuid (u1 u2 name : String)
    (h : uploadKey u1 name = uploadKey u2 name) : u1 = u2 := by
  have hd := congrArg String.data h
  rw [uploadKey_data, uploadKey_data] at hd
  have h2 := List.append_cancel_left hd
  have h3 := List.append_cancel_right h2
  exact congrArg String.mk h3

theorem uploadKey_segments (uuid name : String)
    (hu : ∀ ch ∈ uuid.data, ch ≠ '/' ∧ ch ≠ '.') :
    ∃ s ss, splitPer '/' (fileExt name).data = s :: ss ∧
      splitPer '/' (uploadKey uuid name).data =
        "uploads".data :: (uuid.data ++ '.' :: s) :: ss := by
  cases hext : splitPer '/' (fileExt name).data with
  | nil => exact absurd hext (splitPer_ne_nil '/' (fileExt name).data)
  | cons s ss =>
    refine ⟨s, ss, rfl, ?_⟩
    have hslash : ∀ ch ∈ uuid.data ++ ['.'], ¬(ch = '/') := by
      intro ch hch
      rcases List.mem_append.mp hch with hm | hm
      · exact (hu ch hm).1
      · intro he
        rw [List.mem_singleton.mp hm] at he
        cases he
    have hmid :
        splitPer '/' ((uuid.data ++ ['.']) ++ (fileExt name).data) =
          ((uuid.data ++ ['.']) ++ s) :: ss :=
      splitPer_append '/' (uuid.data ++ ['.']) (fileExt name).data
        (fun hin => hslash '/' hin rfl) s ss hext
    have hkey : (uploadKey uuid name).data =
        "uploads".data ++ '/' :: ((uuid.data ++ ['.']) ++ (fileExt name).data) := by
      rw [uploadKey_data]
      rw [show ("uploads/").data = "uploads".data ++ ['/'] from rfl]
      simp [List.append_assoc]
    rw [hkey,
      splitPer_append_cons '/' "uploads".data _ (by decide), hmid]
    simp [List.append_assoc]

theorem ne_dotdot_of_not_dot_mem (seg : List Char) (h : '.' ∉ seg) :
    seg ≠ ['.', '.'] := by
  intro he
  apply h
  rw [he]
  decide

/-! ## Claims about the upload endpoint -/

/-- C1: a `POST /api/upload` request whose `file` field is absent, whose
MIME type is outside the allow-list, or whose size exceeds 10 MiB gets a
400 response whose message identifies the violated constraint (the three
messages are pairwise distinct), and no `PutObjectCommand` is issued. -/
theorem C1_upload_validation_rejects (pub uuid : String)
    (send : PutObject → Except String Unit) :
    (uploadPOST pub uuid none send =
      (⟨400, some "File is required", none, none, none⟩, [])) ∧
    (∀ f : FileData, f.type ∉ allowedTypes →
      uploadPOST pub uuid (some f) send =
        (⟨400, some "Invalid file type. Allowed: JPEG, PNG, GIF, WebP",
          none, none, none⟩, [])) ∧
    (∀ f : FileData, f.type ∈ allowedTypes → maxSize < f.size →
      uploadPOST pub uuid (some f) send =
        (⟨400, some "File size exceeds 10MB limit", none, none, none⟩, [])) ∧
    ("File is required" ≠ "Invalid file type. Allowed: JPEG, PNG, GIF, WebP" ∧
      "File is required" ≠ "File size exceeds 10MB limit" ∧
      "Invalid file type. Allowed: JPEG, PNG, GIF, WebP" ≠
        "File size exceeds 10MB limit") := by
  refine ⟨rfl, ?_, ?_, by decide⟩
  · intro f hty
    simp [uploadPOST, hty]
  · intro f hty hsz
    simp [uploadPOST, hty, hsz]

theorem C1_witness :
    uploadPOST "https://pub" "u" none (fun _ => Except.ok ()) =
      (⟨400, some "File is required", none, none, none⟩, []) ∧
    uploadPOST "https://pub" "u" (some ⟨"a.bmp", "image/bmp", 5, []⟩)
        (fun _ => Except.ok ()) =
      (⟨400, some "Invalid file type. Allowed: JPEG, PNG, GIF, WebP",
        none, none, none⟩, []) ∧
    uploadPOST "https://pub" "u" (some ⟨"a.png", "image/png", 10485761, []⟩)
        (fun _ => Except.ok ()) =
      (⟨400, some "File size exceeds 10MB limit", none, none, none⟩, []) := by
  refine ⟨(C1_upload_validation_rejects "https://pub" "u" _).1,
    (C1_upload_validation_rejects "https://pub" "u" _).2.1 _ (by decide),
    (C1_upload_validation_rejects "https://pub" "u" _).2.2.1 _ (by decide)
      (by decide)⟩

/-- C2: a valid upload gets a 200 response carrying the generated key and
a `fileUrl` equal to the public base, `"/"`, and that key; two requests
that draw distinct uuids receive distinct keys even for the same file. -/
theorem C2_upload_success_response (pub u1 u2 : String) (f : FileData)
    (send : PutObject → Except String Unit)
    (hty : f.type ∈ allowedTypes) (hsz : f.size ≤ maxSize)
    (hok : ∀ o, send o = Except.ok ()) (hne : u1 ≠ u2) :
    (uploadPOST pub u1 (some f) send).1.status = 200 ∧
    (uploadPOST pub u1 (some f) send).1.key = some (uploadKey u1 f.name) ∧
    (uploadPOST pub u1 (some f) send).1.fileUrl =
      some (pub ++ "/" ++ uploadKey u1 f.name) ∧
    uploadKey u1 f.name ≠ uploadKey u2 f.name := by
  have hns : ¬(f.size > maxSize) := not_lt.mpr hsz
  refine ⟨?_, ?_, ?_, fun h => hne (uploadKey_inj_uuid u1 u2 f.name h)⟩ <;>
    simp [uploadPOST, hty, hns, hok]

theorem C2_witness :
    (uploadPOST "https://pub" "aaa"
      (some ⟨"photo.jpg", "image/jpeg", 100, [0]⟩)
      (fun _ => Except.ok ())).1.status = 200 ∧
    (uploadPOST "https://pub" "aaa"
      (some ⟨"photo.jpg", "image/jpeg", 100, [0]⟩)
      (fun _ => Except.ok ())).1.key = some (uploadKey "aaa" "photo.jpg") ∧
    (uploadPOST "https://pub" "aaa"
      (some ⟨"photo.jpg", "image/jpeg", 100, [0]⟩)
      (fun _ => Except.ok ())).1.fileUrl =
      some ("https://pub" ++ "/" ++ uploadKey "aaa" "photo.jpg") ∧
    uploadKey "aaa" "photo.jpg" ≠ uploadKey "bbb" "photo.jpg" :=
  C2_upload_success_response "https://pub" "aaa" "bbb"
    ⟨"photo.jpg", "image/jpeg", 100, [0]⟩ (fun _ => Except.ok ())
    (by decide) (by decide) (fun _ => rfl) (by decide)

/-- C4: every generated key extends the fixed `"uploads/"` namespace, ends
in the original file's extension, and no file name can make it traverse
out: its first `/`-segment is `uploads` and no segment is `..`
(assuming the uuid drawn by `uuidv4()` contains neither `/` nor `.`,
which holds of every uuidv4, made of hex digits and hyphens). -/
theorem C4_key_stays_in_namespace (uuid name : String)
    (hu : ∀ ch ∈ uuid.data, ch ≠ '/' ∧ ch ≠ '.') :
    (∃ rest, (uploadKey uuid name).data = "uploads/".data ++ rest) ∧
    (∃ stem, (uploadKey uuid name).data = stem ++ (fileExt name).data) ∧
    (splitPer '/' (uploadKey uuid name).data).head? = some "uploads".data ∧
    (∀ seg ∈ splitPer '/' (uploadKey uuid name).data, seg ≠ ['.', '.']) := by
  obtain ⟨s, ss, hsext, hsegs⟩ := uploadKey_segments uuid name hu
  have hsub : ∀ seg ∈ splitPer '/' (fileExt name).data, '.' ∉ seg := by
    intro seg hseg hdot
    exact dot_not_mem_fileExt name
      (mem_of_mem_splitPer '/' (fileExt name).data seg hseg '.' hdot)
  refine ⟨⟨_, uploadKey_data uuid name⟩,
    ⟨"uploads/".data ++ uuid.data ++ ['.'], ?_⟩, ?_, ?_⟩
  · rw [uploadKey_data]
    simp [List.append_assoc]
  · rw [hsegs]
    rfl
  · intro seg hseg
    rw [hsegs] at hseg
    rcases List.mem_cons.mp hseg with rfl | hseg'
    · decide
    · rcases List.mem_cons.mp hseg' with rfl | hseg''
      · cases huu : uuid.data with
        | nil =>
          intro he
          simp only [List.nil_append, List.cons.injEq] at he
          have hsmem : s ∈ splitPer '/' (fileExt name).data := by
            rw [hsext]
            exact List.mem_cons_self s ss
          exact hsub s hsmem (by rw [he.2]; decide)
        | cons ch chs =>
          intro he
          simp only [List.cons_append, List.cons.injEq] at he
          exact (hu ch (by rw [huu]; exact List.mem_cons_self ch chs)).2 he.1
      · refine ne_dotdot_of_not_dot_mem seg (hsub seg ?_)
        rw [hsext]
        exact List.mem_cons_of_mem s hseg''

theorem C4_witness :
    (∃ rest, (uploadKey "abc-123" "photo.jpg").data =
      "uploads/".data ++ rest) ∧
    (∃ stem, (uploadKey "abc-123" "photo.jpg").data =
      stem ++ (fileExt "photo.jpg").data) ∧
    (splitPer '/' (uploadKey "abc-123" "photo.jpg").data).head? =
      some "uploads".data ∧
    (∀ seg ∈ splitPer '/' (uploadKey "abc-123" "photo.jpg").data,
      seg ≠ ['.', '.']) :=
  C4_key_stays_in_namespace "abc-123" "photo.jpg" (by decide)

/-- C5: if the storage-layer call throws, each endpoint catches it and
answers 500 with `{error, details}`, the `details` carrying the thrown
message; the handlers are total, so no fault propagates unhandled. -/
theorem C5_storage_error_responses (pub uuid : String) (f : FileData)
    (msg : String) (send : PutObject → Except String Unit)
    (hty : f.type ∈ allowedTypes) (hsz : f.size ≤ maxSize)
    (hsend : ∀ o, send o = Except.error msg) :
    (uploadPOST pub uuid (some f) send).1 =
      ⟨500, some "Failed to upload file", some msg, none, none⟩ ∧
    imagesGET pub (Except.error msg) =
      ⟨500, some "Failed to list images", some msg, none⟩ := by
  have hns : ¬(f.size > maxSize) := not_lt.mpr hsz
  constructor
  · simp [uploadPOST, hty, hns, hsend]
  · rfl

theorem C5_witness :
    (uploadPOST "https://pub" "u" (some ⟨"a.png", "image/png", 7, [9]⟩)
      (fun _ => Except.error "boom")).1 =
      ⟨500, some "Failed to upload file", some "boom", none, none⟩ ∧
    imagesGET "https://pub" (Except.error "boom") =
      ⟨500, some "Failed to list images", some "boom", none⟩ :=
  C5_storage_error_responses "https://pub" "u" ⟨"a.png", "image/png", 7, [9]⟩
    "boom" (fun _ => Except.error "boom") (by decide) (by decide)
    (fun _ => rfl)

/-- C6: the client-side `validateFile` rejects a file exactly when the
server-side upload validation answers 400 for it, and the two sides use
the same allow-list and the same strict 10 MiB ceiling. -/
theorem C6_client_mirrors_server (pub uuid : String) (f : FileData)
    (send : PutObject → Except String Unit) :
    ((validateFile f).isSome ↔
      (uploadPOST pub uuid (some f) send).1.status = 400) ∧
    ALLOWED_TYPES = allowedTypes ∧ MAX_FILE_SIZE = maxSize := by
  refine ⟨?_, rfl, rfl⟩
  have e1 : ALLOWED_TYPES = allowedTypes := rfl
  have e2 : MAX_FILE_SIZE = maxSize := rfl
  by_cases hm : f.type ∈ allowedTypes
  · by_cases hs : f.size > maxSize
    · constructor
      · intro _
        simp [uploadPOST, hm, hs]
      · intro _
        simp [validateFile, e1, e2, hm, hs]
    · constructor
      · intro hval
        exfalso
        simp [validateFile, e1, e2, hm, hs] at hval
      · intro h400
        exfalso
        cases hsd : send ⟨uploadKey uuid f.name, f.content, f.type⟩ with
        | error m => simp [uploadPOST, hm, hs, hsd] at h400
        | ok v => simp [uploadPOST, hm, hs, hsd] at h400
  · constructor
    · intro _
      simp [uploadPOST, hm]
    · intro _
      simp [validateFile, e1, hm]

theorem C6_witness :
    ((validateFile ⟨"a.gif", "image/gif", 42, []⟩).isSome ↔
      (uploadPOST "https://pub" "u" (some ⟨"a.gif", "image/gif", 42, []⟩)
        (fun _ => Except.ok ())).1.status = 400) ∧
    ALLOWED_TYPES = allowedTypes ∧ MAX_FILE_SIZE = maxSize :=
  C6_client_mirrors_server "https://pub" "u" ⟨"a.gif", "image/gif", 42, []⟩
    (fun _ => Except.ok ())

/-- C9: a file of exactly `10 * 1024 * 1024` bytes passes both the
client-side and the server-side size check (both use strict `>`). -/
theorem C9_boundary_ten_mib (pub uuid : String) (f : FileData)
    (send : PutObject → Except String Unit)
    (hty : f.type ∈ allowedTypes) (hsz : f.size = 10 * 1024 * 1024)
    (hok : ∀ o, send o = Except.ok ()) :
    validateFile f = none ∧
    (uploadPOST pub uuid (some f) send).1.status = 200 := by
  have hns : ¬(f.size > maxSize) := by
    rw [hsz]
    simp [maxSize]
  constructor
  · have e1 : ALLOWED_TYPES = allowedTypes := rfl
    have e2 : MAX_FILE_SIZE = maxSize := rfl
    simp [validateFile, e1, e2, hty, hns]
  · simp [uploadPOST, hty, hns, hok]

theorem C9_witness :
    validateFile ⟨"big.webp", "image/webp", 10485760, []⟩ = none ∧
    (uploadPOST "https://pub" "u"
      (some ⟨"big.webp", "image/webp", 10485760, []⟩)
      (fun _ => Except.ok ())).1.status = 200 :=
  C9_boundary_ten_mib "https://pub" "u" ⟨"big.webp", "image/webp", 10485760, []⟩
    (fun _ => Except.ok ()) (by decide) (by decide) (fun _ => rfl)

/-- C10: `formatFileSize` answers `"Unknown"` both for an absent size and
for the size 0 (the `!bytes` truthiness check), the byte form for
`1 ≤ n < 1024`, the one-decimal KB form for `1024 ≤ n < 1024²`, and the
two-decimal MB form otherwise. -/
theorem C10_format_file_size_branches :
    formatFileSize none = "Unknown" ∧
    formatFileSize (some 0) = "Unknown" ∧
    (∀ n : Nat, 1 ≤ n → n < 1024 →
      formatFileSize (some n) = toString n ++ " B") ∧
    (∀ n : Nat, 1024 ≤ n → n < 1024 * 1024 →
      formatFileSize (some n) =
        toString (roundHalfUp (10 * n) 1024 / 10) ++ "." ++
          toString (roundHalfUp (10 * n) 1024 % 10) ++ " KB") ∧
    (∀ n : Nat, 1024 * 1024 ≤ n →
      formatFileSize (some n) =
        toString (roundHalfUp (100 * n) (1024 * 1024) / 100) ++ "." ++
          padTwo (roundHalfUp (100 * n) (1024 * 1024) % 100) ++ " MB") := by
  refine ⟨rfl, rfl, ?_, ?_, ?_⟩
  · intro n h1 h2
    have h0 : ¬(n = 0) := by omega
    simp [formatFileSize, h0, h2]
  · intro n h1 h2
    have h0 : ¬(n = 0) := by omega
    have hb : ¬(n < 1024) := by omega
    simp [formatFileSize, h0, hb, h2]
  · intro n h1
    have h0 : ¬(n = 0) := by omega
    have hb : ¬(n < 1024) := by omega
    have hkb : ¬(n < 1024 * 1024) := by omega
    simp [formatFileSize, h0, hb, hkb]

theorem C10_witness :
    formatFileSize (some 500) = toString 500 ++ " B" ∧
    formatFileSize (some 1536) =
      toString (roundHalfUp (10 * 1536) 1024 / 10) ++ "." ++
        toString (roundHalfUp (10 * 1536) 1024 % 10) ++ " KB" ∧
    formatFileSize (some 2097152) =
      toString (roundHalfUp (100 * 2097152) (1024 * 1024) / 100) ++ "." ++
        padTwo (roundHalfUp (100 * 2097152) (1024 * 1024) % 100) ++ " MB" :=
  ⟨C10_format_file_size_branches.2.2.1 500 (by decide) (by decide),
    C10_format_file_size_branches.2.2.2.1 1536 (by decide) (by decide),
    C10_format_file_size_branches.2.2.2.2 2097152 (by decide)⟩

/-! ## Claims about the list endpoint and the uploader -/

/-- C3: the listing never contains an entry whose key is the prefix
marker `uploads/`; when every listed object carries a timestamp the
entries come out pairwise in descending `lastModified` order; the
comparator returns 0 on every pair in which either side lacks a
timestamp, and consequently (the sort being stable) an entry lacking a
timestamp keeps its relative position: the sort splits at it, sorting
what precedes it and what follows it independently. -/
theorem C3_list_filter_sort (pub : String) (objs : List S3Obj) :
    (∀ img ∈ listImages pub (some objs), img.key ≠ "uploads/") ∧
    ((∀ o ∈ objs, o.lastModified.isSome) →
      (listImages pub (some objs)).Pairwise descBy) ∧
    (∀ a b : ImageItem, a.lastModified = none ∨ b.lastModified = none →
      imgCmp a b = 0) ∧
    (∀ (pre suf : List ImageItem) (n : ImageItem), n.lastModified = none →
      sortCmp imgCmp (pre ++ n :: suf) =
        sortCmp imgCmp pre ++ n :: sortCmp imgCmp suf) := by
  have heq : listImages pub (some objs) =
      sortCmp imgCmp ((objs.filter keepObj).map (toItem pub)) := rfl
  refine ⟨?_, ?_, ?_, sortCmp_split_at_none⟩
  · intro img himg
    rw [heq] at himg
    have h1 := (mem_sortCmp imgCmp img _).mp himg
    obtain ⟨o, ho, rfl⟩ := List.mem_map.mp h1
    obtain ⟨homem, hk⟩ := List.mem_filter.mp ho
    cases hko : o.key with
    | none =>
      rw [keepObj, hko] at hk
      cases hk
    | some k =>
      rw [keepObj, hko] at hk
      have hk2 := (Bool.and_eq_true _ _).mp hk
      have hne : k ≠ "uploads/" := bne_iff_ne.mp hk2.2
      simpa [toItem, hko] using hne
  · intro hall
    rw [heq]
    apply pairwise_sortCmp
    intro y hy
    obtain ⟨o, ho, rfl⟩ := List.mem_map.mp hy
    have homem := (List.mem_filter.mp ho).1
    have := hall o homem
    simpa [toItem] using this
  · intro a b h
    rcases h with h | h
    · exact imgCmp_none_left a b h
    · exact imgCmp_none_right a b h

theorem C3_witness :
    (∀ img ∈ listImages "https://pub"
        (some [⟨some "uploads/a.jpg", some 1, some 5⟩,
               ⟨some "uploads/b.jpg", some 2, some 9⟩,
               ⟨some "uploads/", none, some 1⟩]),
      img.key ≠ "uploads/") ∧
    (listImages "https://pub"
        (some [⟨some "uploads/a.jpg", some 1, some 5⟩,
               ⟨some "uploads/b.jpg", some 2, some 9⟩,
               ⟨some "uploads/", none, some 1⟩])).Pairwise descBy :=
  ⟨(C3_list_filter_sort "https://pub" _).1,
    (C3_list_filter_sort "https://pub"
      [⟨some "uploads/a.jpg", some 1, some 5⟩,
       ⟨some "uploads/b.jpg", some 2, some 9⟩,
       ⟨some "uploads/", none, some 1⟩]).2.1 (by decide)⟩

/-- C7 (code bug): the claimed per-task state machine
`pending → uploading → completed/error` is violated by the source's
stale-index XMLHttpRequest callbacks.  Reachable trace, each step a
`UStep` of the program: task A is added and "Upload All" starts its
upload (the xhr callbacks capture index 0); task B is added; A is removed,
shifting B to index 0; A's completion callback then fires against the
captured index 0 and marks the never-uploaded, still-`pending` task B
`completed` (with A's result URL) — a direct `pending → completed`
transition that `allowedTransition` forbids. -/
theorem C7_stale_index_breaks_state_machine :
    UStep [] (addFiles [] [(⟨"a.png", "image/png", 5, []⟩, "blob:1")]) ∧
    addFiles [] [(⟨"a.png", "image/png", 5, []⟩, "blob:1")] =
      [⟨⟨"a.png", "image/png", 5, []⟩, "blob:1", 0,
        UStatus.pending, none, none⟩] ∧
    UStep [⟨⟨"a.png", "image/png", 5, []⟩, "blob:1", 0,
        UStatus.pending, none, none⟩]
      (uploadAllFiles [⟨⟨"a.png", "image/png", 5, []⟩, "blob:1", 0,
        UStatus.pending, none, none⟩]) ∧
    uploadAllFiles [⟨⟨"a.png", "image/png", 5, []⟩, "blob:1", 0,
        UStatus.pending, none, none⟩] =
      [⟨⟨"a.png", "image/png", 5, []⟩, "blob:1", 0,
        UStatus.uploading, none, none⟩] ∧
    UStep [⟨⟨"a.png", "image/png", 5, []⟩, "blob:1", 0,
        UStatus.uploading, none, none⟩]
      (addFiles [⟨⟨"a.png", "image/png", 5, []⟩, "blob:1", 0,
          UStatus.uploading, none, none⟩]
        [(⟨"b.png", "image/png", 6, []⟩, "blob:2")]) ∧
    addFiles [⟨⟨"a.png", "image/png", 5, []⟩, "blob:1", 0,
        UStatus.uploading, none, none⟩]
      [(⟨"b.png", "image/png", 6, []⟩, "blob:2")] =
      [⟨⟨"a.png", "image/png", 5, []⟩, "blob:1", 0,
        UStatus.uploading, none, none⟩,
       ⟨⟨"b.png", "image/png", 6, []⟩, "blob:2", 0,
        UStatus.pending, none, none⟩] ∧
    UStep [⟨⟨"a.png", "image/png", 5, []⟩, "blob:1", 0,
        UStatus.uploading, none, none⟩,
       ⟨⟨"b.png", "image/png", 6, []⟩, "blob:2", 0,
        UStatus.pending, none, none⟩]
      (removeFile [⟨⟨"a.png", "image/png", 5, []⟩, "blob:1", 0,
          UStatus.uploading, none, none⟩,
        ⟨⟨"b.png", "image/png", 6, []⟩, "blob:2", 0,
          UStatus.pending, none, none⟩] 0).2 ∧
    (removeFile [⟨⟨"a.png", "image/png", 5, []⟩, "blob:1", 0,
        UStatus.uploading, none, none⟩,
      ⟨⟨"b.png", "image/png", 6, []⟩, "blob:2", 0,
        UStatus.pending, none, none⟩] 0).2 =
      [⟨⟨"b.png", "image/png", 6, []⟩, "blob:2", 0,
        UStatus.pending, none, none⟩] ∧
    (⟨⟨"b.png", "image/png", 6, []⟩, "blob:2", 0,
      UStatus.pending, none, none⟩ : UTask).status = UStatus.pending ∧
    UStep [⟨⟨"b.png", "image/png", 6, []⟩, "blob:2", 0,
        UStatus.pending, none, none⟩]
      (finishTask [⟨⟨"b.png", "image/png", 6, []⟩, "blob:2", 0,
        UStatus.pending, none, none⟩] 0 "https://pub/uploads/u.png") ∧
    finishTask [⟨⟨"b.png", "image/png", 6, []⟩, "blob:2", 0,
        UStatus.pending, none, none⟩] 0 "https://pub/uploads/u.png" =
      [⟨⟨"b.png", "image/png", 6, []⟩, "blob:2", 100,
        UStatus.completed, some "https://pub/uploads/u.png", none⟩] ∧
    (⟨⟨"b.png", "image/png", 6, []⟩, "blob:2", 100,
      UStatus.completed, some "https://pub/uploads/u.png", none⟩ :
        UTask).status = UStatus.completed ∧
    ¬ allowedTransition UStatus.pending UStatus.completed := by
  refine ⟨UStep.addTasks _ _, by decide, UStep.uploadAll _, by decide,
    UStep.addTasks _ _, by decide, UStep.remove _ 0, by decide, rfl,
    UStep.finish _ 0 _, by decide, rfl, ?_⟩
  intro h
  rcases h with h | ⟨h1, h2⟩ | ⟨h1, h2⟩
  · exact absurd h (by decide)
  · exact absurd h2 (by decide)
  · exact absurd h1 (by decide)


/-- C8: for a task at a valid index, `removeFile` revokes exactly that
task's preview URL in the same updater call, and the resulting list is
the old list with that single entry removed — everything before and after
it is kept unchanged and in order. -/
theorem C8_remove_releases_and_removes (tasks : List UTask) (i : Nat)
    (hi : i < tasks.length) :
    (removeFile tasks i).1 = some ((tasks.get ⟨i, hi⟩).preview) ∧
    (removeFile tasks i).2 = tasks.take i ++ tasks.drop (i + 1) := by
  constructor
  · simp [removeFile, List.getElem?_eq_getElem hi, List.get_eq_getElem]
  · show filterIdx (fun j => j != i) 0 tasks = _
    have := filterIdx_erase tasks 0 i
    simpa using this

theorem C8_witness :
    (removeFile
      [⟨⟨"a.png", "image/png", 5, []⟩, "blob:1", 0,
        UStatus.pending, none, none⟩,
       ⟨⟨"b.png", "image/png", 6, []⟩, "blob:2", 0,
        UStatus.completed, some "u", none⟩] 0).1 =
      some ((([⟨⟨"a.png", "image/png", 5, []⟩, "blob:1", 0,
          UStatus.pending, none, none⟩,
         ⟨⟨"b.png", "image/png", 6, []⟩, "blob:2", 0,
          UStatus.completed, some "u", none⟩] : List UTask).get
            ⟨0, by decide⟩).preview) ∧
    (removeFile
      [⟨⟨"a.png", "image/png", 5, []⟩, "blob:1", 0,
        UStatus.pending, none, none⟩,
       ⟨⟨"b.png", "image/png", 6, []⟩, "blob:2", 0,
        UStatus.completed, some "u", none⟩] 0).2 =
      ([⟨⟨"a.png", "image/png", 5, []⟩, "blob:1", 0,
          UStatus.pending, none, none⟩,
        ⟨⟨"b.png", "image/png", 6, []⟩, "blob:2", 0,
          UStatus.completed, some "u", none⟩] : List UTask).take 0 ++
        ([⟨⟨"a.png", "image/png", 5, []⟩, "blob:1", 0,
            UStatus.pending, none, none⟩,
          ⟨⟨"b.png", "image/png", 6, []⟩, "blob:2", 0,
            UStatus.completed, some "u", none⟩] : List UTask).drop 1 :=
  C8_remove_releases_and_removes
    [⟨⟨"a.png", "image/png", 5, []⟩, "blob:1", 0,
      UStatus.pending, none, none⟩,
     ⟨⟨"b.png", "image/png", 6, []⟩, "blob:2", 0,
      UStatus.completed, some "u", none⟩] 0 (by decide)

end VgmAdmin
